import Mathlib

/-!
A shallow embedding of the Water Linked modem driver (wlmodem): the sentence
codec and streaming parser from wlmodem/protocol.py, the modem client built on
them, and the datagram framing layer from wlmodem/transport.py (COBS/R byte
stuffing from the cobs package, CRC-8 from crcmod, padding, frame extraction,
and the background worker's send/receive pumps).

Bytes are modelled as natural numbers (the code only ever compares them and
feeds them to CRC-8, which reduces mod 256 internally); byte strings are
`List Nat`.  Python exceptions are modelled with `Except PyErr`; Python's
fixed exception classes become constructors of `PyErr`.  Time-bounded polling
loops are modelled with a fuel parameter counting poll iterations.
-/

namespace Wlm

/-- Start of packet marker, the byte w (protocol.py SOP). -/
def SOP : Nat := 119

/-- End of packet marker, the byte LF (protocol.py EOP). -/
def EOP : Nat := 10

/-- Direction byte c, a command to the modem (protocol.py DIR_CMD). -/
def DIR_CMD : Nat := 99

/-- Direction byte r, a response from the modem (protocol.py DIR_RESP). -/
def DIR_RESP : Nat := 114

/-- Checksum sigil, the byte * (protocol.py CHECKSUM). -/
def CHECKSUM : Nat := 42

def CMD_GET_VERSION : Nat := 118

def CMD_GET_PAYLOAD_SIZE : Nat := 110

def CMD_GET_BUFFER_LENGTH : Nat := 108

def CMD_GET_DIAGNOSTIC : Nat := 100

def CMD_GET_SETTINGS : Nat := 99

def CMD_SET_SETTINGS : Nat := 115

def CMD_QUEUE_PACKET : Nat := 113

def CMD_FLUSH : Nat := 102

def RESP_GOT_PACKET : Nat := 112

/-- The nine known sentence codes (protocol.py ALL_VALID). -/
def ALL_VALID : List Nat :=
  [CMD_GET_VERSION, CMD_GET_PAYLOAD_SIZE, CMD_GET_BUFFER_LENGTH,
   CMD_GET_DIAGNOSTIC, CMD_GET_SETTINGS, CMD_SET_SETTINGS,
   CMD_QUEUE_PACKET, CMD_FLUSH, RESP_GOT_PACKET]

/-- ASCII bytes of a string literal, for writing concrete byte strings. -/
def ascii (s : String) : List Nat := s.data.map Char.toNat

/-- Python exceptions reachable in the embedded code.  parseError is
WlProtocolParseError, checksumError is WlProtocolChecksumError, genericError
is WlModemGenericError; the rest are Python builtins. -/
inductive PyErr where
  | parseError
  | checksumError
  | genericError
  | indexError
  | valueError
  | typeError
deriving DecidableEq, Repr

/-- ModemSentence: a decoded protocol sentence.  `options` is `none` when the
Python object carries options=None. -/
structure Sentence where
  cmd : Nat
  dir : Nat
  options : Option (List (List Nat))
deriving DecidableEq, Repr

/-- Python `bytes.split(sep)` with no maxsplit, on byte lists. -/
def pySplit (sep : Nat) : List Nat → List (List Nat)
  | [] => [[]]
  | x :: rest =>
      if x = sep then [] :: pySplit sep rest
      else
        match pySplit sep rest with
        | [] => [[x]]
        | r :: rs => (x :: r) :: rs

/-- Python `bytes.split(sep, maxsplit)` on byte lists. -/
def pySplitN (sep : Nat) (maxs : Nat) : List Nat → List (List Nat)
  | [] => [[]]
  | x :: rest =>
      if x = sep ∧ 0 < maxs then [] :: pySplitN sep (maxs - 1) rest
      else
        match pySplitN sep maxs rest with
        | [] => [[x]]
        | r :: rs => (x :: r) :: rs

/-- Python `b",".join(options)`. -/
def joinComma : List (List Nat) → List Nat
  | [] => []
  | [o] => o
  | o :: rest => o ++ 44 :: joinComma rest

/-- Python `int()` on an ASCII byte string, restricted to an optional sign
followed by decimal digits (int() additionally strips surrounding whitespace
and allows underscore grouping; no behaviour in this development depends on
those, so they are not modelled). -/
def pyInt (s : List Nat) : Except PyErr Int :=
  let signDigits : Int × List Nat :=
    match s with
    | 43 :: rest => (1, rest)
    | 45 :: rest => (-1, rest)
    | _ => (1, s)
  if signDigits.2 ≠ [] ∧ signDigits.2.all (fun d => 48 ≤ d ∧ d ≤ 57) then
    .ok (signDigits.1 * (signDigits.2.foldl (fun a d => a * 10 + (d - 48)) 0 : Nat))
  else .error .valueError

/-- Decimal ASCII representation of a natural number, as Python
`bytes(str(n))`.  The first argument is recursion fuel (`n` itself is always
enough, since the value shrinks by a factor of ten each step). -/
def decReprAux : Nat → Nat → List Nat
  | 0, n => [48 + n % 10]
  | fuel + 1, n => if n < 10 then [48 + n] else decReprAux fuel (n / 10) ++ [48 + n % 10]

/-- Decimal ASCII representation of a natural number. -/
def decRepr (n : Nat) : List Nat := decReprAux n n

/-- One step of the bitwise CRC-8 update: shift left, xor with the polynomial
0x07 when the top bit was set, truncate to a byte. -/
def crc8Step (c : Nat) : Nat :=
  if 128 ≤ c % 256 then ((c % 256) * 2 ^^^ 7) % 256 else ((c % 256) * 2) % 256

/-- Eight CRC-8 bit steps. -/
def crc8Bits : Nat → Nat → Nat
  | 0, c => c
  | n + 1, c => crc8Bits n (crc8Step c)

/-- CRC-8 over one byte, folded into the running value. -/
def crc8Byte (crc b : Nat) : Nat := crc8Bits 8 ((crc ^^^ b % 256) % 256)

/-- crcmod's predefined crc-8: polynomial 0x107, init 0, not reflected,
xor-out 0.  Used both by the sentence codec (checksum_for_buffer) and by the
datagram transport (transport.py crc_func). -/
def crc8 (data : List Nat) : Nat := data.foldl crc8Byte 0

/-- Lowercase hex digit of a value below 16. -/
def hexDigit (d : Nat) : Nat := if d < 10 then 48 + d else 87 + d

/-- WlProtocolParser.do_format_checksum: the three bytes `*hh` with hh the
two lowercase hex digits of the checksum byte. -/
def do_format_checksum (c : Nat) : List Nat := [CHECKSUM, hexDigit (c / 16), hexDigit (c % 16)]

/-- WlProtocolParser.checksum_for_buffer (with crcmod installed, so the
HAS_CRC path is taken). -/
def checksum_for_buffer (data : List Nat) : List Nat := do_format_checksum (crc8 data)

/-- WlProtocolParser.do_frame_fragments: the sentence body and its optional
checksum fragment.  An empty options list models Python options=None/[] (both
falsy). -/
def do_frame_fragments (cmd direction : Nat) (options : List (List Nat)) (checksum : Bool) :
    List Nat × List Nat :=
  let resp := [SOP, direction, cmd] ++ (if options = [] then [] else 44 :: joinComma options)
  let csum := if checksum then checksum_for_buffer resp else []
  (resp, csum)

/-- WlProtocolParser.do_frame: body, optional checksum, terminating EOP. -/
def do_frame (cmd direction : Nat) (options : List (List Nat)) (checksum : Bool) : List Nat :=
  let rc := do_frame_fragments cmd direction options checksum
  rc.1 ++ rc.2 ++ [EOP]

/-- The tail of WlProtocolParser.parse after checksum handling: read the code
byte (IndexError if the stripped sentence is shorter than 3 bytes), split on
commas — only the first two for the binary queue_packet/got_packet codes —
and build the ModemSentence; unknown codes fall through to `return None`. -/
def parse_tail (s1 : List Nat) (direction : Nat) : Except PyErr (Option Sentence) :=
  if s1.length < 3 then .error .indexError
  else
    let cmd := s1.getD 2 0
    if cmd ∈ ALL_VALID then
      let fragments :=
        if cmd = CMD_QUEUE_PACKET ∨ cmd = RESP_GOT_PACKET then pySplitN 44 2 s1
        else pySplit 44 s1
      if 1 < fragments.length then .ok (some ⟨cmd, direction, some (fragments.drop 1)⟩)
      else .ok (some ⟨cmd, direction, none⟩)
    else .ok none

/-- WlProtocolParser.parse on a candidate sentence (the streaming layer hands
it the buffer contents, without the EOP byte).  Checks SOP, length and
direction, then treats a `*` three bytes from the end as the start of a
checksum field: the field is stripped and verified before the body is split.
Raises IndexError on an empty sentence (Python `sentence[0]`). -/
def parse (s : List Nat) : Except PyErr (Option Sentence) :=
  if s.length = 0 then .error .indexError
  else if s.getD 0 0 ≠ SOP then .error .parseError
  else if s.length < 3 then .error .parseError
  else
    let direction := s.getD 1 0
    if direction ≠ DIR_CMD ∧ direction ≠ DIR_RESP then .error .parseError
    else
      if s.getD (s.length - 3) 0 = CHECKSUM then
        let s1 := s.take (s.length - 3)
        if s.drop (s.length - 3) ≠ checksum_for_buffer s1 then .error .checksumError
        else parse_tail s1 direction
      else parse_tail s direction

/-- protocol.py is_eop: LF or CR. -/
def is_eop (b : Nat) : Bool := b = 10 ∨ b = 13

/-- protocol.py get_binary_payload_size: detect the start of a binary payload
and return its byte count.  Requires the buffer to be exactly 6 bytes, to
start with SOP, to have a queue_packet/got_packet code byte third, and the
text between the first comma and an optional second comma to parse as an
integer; returns -1 otherwise.  (The direction byte is not inspected.) -/
def get_binary_payload_size (sentence : List Nat) : Int :=
  if sentence.length ≠ 6 then -1
  else if sentence.getD 0 0 ≠ SOP then -1
  else if ¬ (sentence.getD 2 0 = CMD_QUEUE_PACKET ∨ sentence.getD 2 0 = RESP_GOT_PACKET) then -1
  else
    let fragments := pySplitN 44 2 sentence
    if fragments.length < 2 then -1
    else
      match pyInt (fragments.getD 1 []) with
      | .ok n => n
      | .error _ => -1

/-- The streaming parser's persistent state inside WlModemBase: the partial
sentence buffer and the binary holdoff counter. -/
structure PState where
  buffer : List Nat
  holdoff : Nat
deriving DecidableEq, Repr

/-- The empty parser state (fresh WlModemBase, or after _reset_buffer). -/
def initPState : PState := ⟨[], 0⟩

/-- One iteration of the WlModemBase.get_packet read loop, processing a
single byte: swallow EOP on an empty buffer; append unconditionally while the
holdoff is positive; otherwise an EOP marks the sentence done and any other
byte is appended.  Then re-evaluate the holdoff from
get_binary_payload_size, and when the sentence is done with no holdoff
pending, parse the buffer, reset the state, and emit the outcome (the parsed
packet, or the raised error). -/
def pstep (st : PState) (b : Nat) : PState × Option (Except PyErr (Option Sentence)) :=
  if st.buffer = [] ∧ is_eop b then (st, none)
  else
    let s1 : PState × Bool :=
      if 0 < st.holdoff then (⟨st.buffer ++ [b], st.holdoff - 1⟩, false)
      else if is_eop b then (st, true)
      else (⟨st.buffer ++ [b], 0⟩, false)
    let st1 := s1.1
    let st2 :=
      if st1.holdoff = 0 ∧ 0 < get_binary_payload_size st1.buffer then
        ⟨st1.buffer, (get_binary_payload_size st1.buffer).toNat⟩
      else st1
    if 0 < st2.holdoff then (st2, none)
    else if s1.2 = false then (st2, none)
    else
      match parse st2.buffer with
      | .ok pkt => (initPState, some (.ok pkt))
      | .error e => (initPState, some (.error e))

/-- Feed a byte string to the streaming parser one byte at a time, collecting
every emitted outcome (sentences, swallowed unknown-code results, and raised
errors) in order.  This is the byte-level semantics of repeatedly calling
WlModemBase.get_packet until the device buffer is drained. -/
def processBytes (input : List Nat) (st : PState) :
    PState × List (Except PyErr (Option Sentence)) :=
  match input with
  | [] => (st, [])
  | b :: rest =>
      let se := pstep st b
      let tail := processBytes rest se.1
      (tail.1, se.2.toList ++ tail.2)

/-- Feed a list of chunks to the streaming parser in order, threading the
parser state across chunk boundaries and concatenating the outputs. -/
def processChunks (chunks : List (List Nat)) (st : PState) :
    PState × List (Except PyErr (Option Sentence)) :=
  match chunks with
  | [] => (st, [])
  | c :: rest =>
      let se := processBytes c st
      let tail := processChunks rest se.1
      (tail.1, se.2 ++ tail.2)

/-- WlModemBase.get_packet over a scripted device: consume pending input one
byte at a time; return the first emitted packet (possibly None, when parse
swallowed an unknown code) together with the unread input and parser state,
or propagate a raised parse/checksum error; return None when the input is
exhausted before a full sentence. -/
def get_packet : List Nat → PState → Except PyErr (Option Sentence × List Nat × PState)
  | [], st => .ok (none, [], st)
  | b :: rest, st =>
      match pstep st b with
      | (st', none) => get_packet rest st'
      | (st', some (.ok pkt)) => .ok (pkt, rest, st')
      | (_, some (.error e)) => .error e

/-- The modem client state (WlModemBase): scripted device input, parser
state, the pending receive queue of unsolicited got_packet sentences, and the
payload size learned at connect (-1 before). -/
structure ModemState where
  input : List Nat
  pst : PState
  rxQueue : List Sentence
  payloadSize : Int
deriving DecidableEq, Repr

/-- get_packet acting on the modem client state. -/
def get_packetM (m : ModemState) : Except PyErr (Option Sentence × ModemState) :=
  match get_packet m.input m.pst with
  | .error e => .error e
  | .ok (pkt, rest, st') => .ok (pkt, { m with input := rest, pst := st' })

/-- Polling budget standing in for the default 0.5 second timeout of the
request helpers (the loop in wait_sentence polls once per millisecond). -/
def default_fuel : Nat := 8

/-- WlModemBase.wait_sentence: poll get_packet until a sentence with the
requested code arrives or the time budget (fuel) runs out; an unsolicited
got_packet sentence seen on the way is appended to the receive queue and
polling continues. -/
def wait_sentence (fuel : Nat) (resp_id : Nat) (m : ModemState) :
    Except PyErr (Option Sentence × ModemState) :=
  match fuel with
  | 0 => .ok (none, m)
  | fuel + 1 =>
      match get_packetM m with
      | .error e => .error e
      | .ok (none, m') => wait_sentence fuel resp_id m'
      | .ok (some msg, m') =>
          if msg.cmd = resp_id then .ok (some msg, m')
          else if msg.cmd = RESP_GOT_PACKET then
            wait_sentence fuel resp_id { m' with rxQueue := m'.rxQueue ++ [msg] }
          else wait_sentence fuel resp_id m'

/-- WlModemBase.request: write the framed command (writes to the scripted
device do not change its pending input) and wait for the response. -/
def request (m : ModemState) (cmd_id : Nat) (options : List (List Nat)) (fuel : Nat) :
    Except PyErr (Option Sentence × ModemState) :=
  let _written := do_frame cmd_id DIR_CMD options false
  wait_sentence fuel cmd_id m

/-- Python `options[i]` on a ModemSentence options field: TypeError when the
field is None, IndexError past the end. -/
def py_opt_index (options : Option (List (List Nat))) (i : Nat) : Except PyErr (List Nat) :=
  match options with
  | none => .error .typeError
  | some os =>
      match os.get? i with
      | none => .error .indexError
      | some o => .ok o

/-- Python truth test `ch == b'a'` in protocol.py is_ack. -/
def is_ack (o : List Nat) : Bool := o = [97]

/-- WlModemBase.cmd_get_queue_length: request the transmit queue length and
return it, or -1 on timeout. -/
def cmd_get_queue_length (m : ModemState) (fuel : Nat) : Except PyErr (Int × ModemState) := do
  let rm ← request m CMD_GET_BUFFER_LENGTH [] fuel
  match rm.1 with
  | some p => do
      let o ← py_opt_index p.options 0
      let n ← pyInt o
      .ok (n, rm.2)
  | none => .ok (-1, rm.2)

/-- WlModemBase.cmd_get_payload_size.  The caller-supplied timeout is
accepted but never forwarded: the request is issued with the default
timeout. -/
def cmd_get_payload_size (m : ModemState) (timeout : Nat) : Except PyErr (Int × ModemState) := do
  let rm ← request m CMD_GET_PAYLOAD_SIZE [] default_fuel
  match rm.1 with
  | none => .ok (0, rm.2)
  | some p => do
      let o ← py_opt_index p.options 0
      let n ← pyInt o
      .ok (n, rm.2)

/-- WlModemBase.cmd_queue_packet: refuse (WlModemGenericError) before connect
or on a payload of the wrong size, otherwise queue the packet and report the
acknowledge.  (The data is already a byte string in this model, so the
Python isinstance check cannot fire.) -/
def cmd_queue_packet (m : ModemState) (data : List Nat) (fuel : Nat) :
    Except PyErr (Bool × ModemState) := do
  if m.payloadSize < 1 then .error .genericError
  else if (data.length : Int) ≠ m.payloadSize then .error .genericError
  else
    let rm ← request m CMD_QUEUE_PACKET [decRepr m.payloadSize.toNat, data] fuel
    match rm.1 with
    | some p => do
        let o ← py_opt_index p.options 0
        .ok (is_ack o, rm.2)
    | none => .ok (false, rm.2)

/-- WlModemBase.get_data_packet: drain the pending receive queue first; with
a positive timeout wait for a got_packet sentence; with timeout 0 do a single
non-blocking get_packet and return its payload only if it was a got_packet. -/
def get_data_packet (m : ModemState) (timeout : Int) (fuel : Nat) :
    Except PyErr (Option (List Nat) × ModemState) :=
  match m.rxQueue with
  | pkt :: rest =>
      match py_opt_index pkt.options 1 with
      | .error e => .error e
      | .ok payload => .ok (some payload, { m with rxQueue := rest })
  | [] =>
      if 0 < timeout then
        match wait_sentence fuel RESP_GOT_PACKET m with
        | .error e => .error e
        | .ok (some p, m') =>
            match py_opt_index p.options 1 with
            | .error e => .error e
            | .ok payload => .ok (some payload, m')
        | .ok (none, m') => .ok (none, m')
      else
        match get_packetM m with
        | .error e => .error e
        | .ok (some p, m') =>
            if p.cmd = RESP_GOT_PACKET then
              match py_opt_index p.options 1 with
              | .error e => .error e
              | .ok payload => .ok (some payload, m')
            else .ok (none, m')
        | .ok (none, m') => .ok (none, m')

/-- The byte-stuffing loop of cobs.cobsr.encode (the COBS/R variant used by
transport.py via `from cobs import cobsr as cobs`).  `group` is the run of
non-zero bytes accumulated since the last emitted block (`search_start_idx`
to `idx` in the Python source), `fz` is its final_zero flag.  A zero byte
emits the pending group with a length code; a group reaching 254 bytes is
emitted with code 0xFF; at the end of input an empty pending group emits the
code 0x01 only if final_zero is set, and otherwise COBS/R replaces the final
length code with the group's last byte whenever that byte is large enough. -/
def encLoop (group : List Nat) (xs : List Nat) (fz : Bool) : List Nat :=
  match xs with
  | [] =>
      if group = [] then (if fz then [1] else [])
      else if group.length + 1 ≤ group.getLastD 0 then group.getLastD 0 :: group.dropLast
      else (group.length + 1) :: group
  | b :: rest =>
      if b = 0 then (group.length + 1) :: (group ++ encLoop [] rest true)
      else if group.length = 253 then 255 :: ((group ++ [b]) ++ encLoop [] rest false)
      else encLoop (group ++ [b]) rest fz

/-- cobs.cobsr.encode. -/
def cobsrEncode (xs : List Nat) : List Nat := encLoop [] xs true

/-- The decode loop of cobs.cobsr.decode.  Each step reads a length code c
(zero is a decode error), copies the next c-1 bytes (a zero among them is a
decode error), and restores a zero between blocks whose code is below 0xFF;
if the input ends before c-1 bytes are available the code byte itself is the
final data byte (COBS/R), and `none` models a raised DecodeError.  The fuel
argument is the remaining input length, which shrinks by at least one byte
per step. -/
def decLoop : Nat → List Nat → Option (List Nat)
  | _, [] => some []
  | 0, _ :: _ => none
  | fuel + 1, c :: rest =>
      if c = 0 then none
      else
        let copy := rest.take (c - 1)
        if 0 ∈ copy then none
        else if rest.length < c - 1 then some (copy ++ [c])
        else if rest.length = c - 1 then some copy
        else
          match decLoop fuel (rest.drop (c - 1)) with
          | none => none
          | some tail => some ((if c < 255 then copy ++ [0] else copy) ++ tail)

/-- cobs.cobsr.decode; `none` models a raised DecodeError. -/
def cobsrDecode (xs : List Nat) : Option (List Nat) := decLoop xs.length xs

/-- transport.py frame: append the CRC-8 of the data, COBS/R-encode, and
terminate with the zero FRAME_END byte. -/
def frame (data : List Nat) : List Nat := cobsrEncode (data ++ [crc8 data]) ++ [0]

/-- The while loop of transport.py pad_payload, on the number of bytes left
to fill: append 2-byte empty COBS frames (0x01, 0x00) while two or more
bytes remain, then a single FRAME_END if one byte remains. -/
def padLoop : Nat → List Nat
  | 0 => []
  | 1 => [0]
  | left + 2 => 1 :: 0 :: padLoop left

/-- transport.py pad_payload: pad data up to payload_size bytes. -/
def pad_payload (data : List Nat) (payload_size : Int) : List Nat :=
  data ++ padLoop (payload_size - data.length).toNat

/-- The result of transport.py unframe, as a sum type: `err` is the Python
return value False (COBS decode failure or CRC mismatch), `fill` is the
Python return value None (padding only), `data` carries the decoded
datagram. -/
inductive UnframeResult where
  | err
  | fill
  | data (bytes : List Nat)
deriving DecidableEq, Repr

/-- transport.py unframe: strip a single trailing zero if present, COBS/R
decode (False on DecodeError), report padding-only frames as the fill
sentinel, then split off the trailing CRC byte and verify it. -/
def unframe (buffer : List Nat) : UnframeResult :=
  let buf :=
    match buffer.getLast? with
    | some 0 => buffer.dropLast
    | _ => buffer
  match cobsrDecode buf with
  | none => .err
  | some decoded =>
      if decoded = [] then .fill
      else if crc8 decoded.dropLast = decoded.getLastD 0 then .data decoded.dropLast
      else .err

/-- The frame-extraction loop of WlUDPBase.run_receive: while the buffer
contains a FRAME_END byte, slice off the bytes before the first one (the
frame handed to unframe) and discard the FRAME_END.  Fuel is the buffer
length; every iteration removes at least the FRAME_END byte. -/
def extractFramesAux : Nat → List Nat → List (List Nat)
  | 0, _ => []
  | fuel + 1, buf =>
      if 0 ∈ buf then
        buf.takeWhile (· ≠ 0) :: extractFramesAux fuel ((buf.dropWhile (· ≠ 0)).tail)
      else []

/-- All frames extracted from a receive buffer, in order. -/
def extractFrames (buf : List Nat) : List (List Nat) := extractFramesAux buf.length buf

/-- The receive buffer contents left after the extraction loop (the bytes
after the last FRAME_END). -/
def afterFramesAux : Nat → List Nat → List Nat
  | 0, buf => buf
  | fuel + 1, buf =>
      if 0 ∈ buf then afterFramesAux fuel ((buf.dropWhile (· ≠ 0)).tail) else buf

/-- Remaining receive buffer after extracting all complete frames. -/
def afterFrames (buf : List Nat) : List Nat := afterFramesAux buf.length buf

/-- Python slicing `xs[:n]` with a possibly negative bound. -/
def pyTake (n : Int) (xs : List Nat) : List Nat :=
  if n < 0 then xs.take ((xs.length + n).toNat) else xs.take n.toNat

/-- Python slicing `xs[n:]` with a possibly negative bound. -/
def pyDrop (n : Int) (xs : List Nat) : List Nat :=
  if n < 0 then xs.drop ((xs.length + n).toNat) else xs.drop n.toNat

/-- The datagram transport state (WlUDPBase / WlUDPSocket): the owned modem
client, the staging buffers, the application-facing queues (unbounded, the
default tx_max = rx_max = 0), and the desired low-water mark on the modem's
transmit queue. -/
structure TState where
  modem : ModemState
  txBuf : List Nat
  rxBuf : List Nat
  txQueue : List (List Nat)
  rxQueueT : List (List Nat)
  desired : Int
deriving DecidableEq, Repr

/-- WlUDPSocket._fill_tx_buf: dequeue one datagram if available, frame it and
append it to the transmit staging buffer. -/
def fill_tx_buf (ts : TState) : TState :=
  match ts.txQueue with
  | [] => ts
  | d :: rest => { ts with txQueue := rest, txBuf := ts.txBuf ++ frame d }

/-- WlUDPBase._get_next_tx_packet: slice payload_size bytes off the staging
buffer, padding when fewer are available. -/
def get_next_tx_packet (ts : TState) : List Nat × TState :=
  let send := pyTake ts.modem.payloadSize ts.txBuf
  let ts1 := { ts with txBuf := pyDrop ts.modem.payloadSize ts.txBuf }
  let send1 :=
    if (send.length : Int) < ts1.modem.payloadSize then pad_payload send ts1.modem.payloadSize
    else send
  (send1, ts1)

/-- WlUDPBase.run_send (the send pump): when the modem's transmit queue is
below the low-water mark, top up the staging buffer from the application
queue if it is short, and queue one packet if any bytes are staged.  No
exception handling: errors raised by the modem client propagate. -/
def run_send (ts : TState) : Except PyErr TState := do
  let rq ← cmd_get_queue_length ts.modem default_fuel
  let ts1 := { ts with modem := rq.2 }
  if rq.1 < ts1.desired then
    let ts2 :=
      if (ts1.txBuf.length : Int) < ts1.modem.payloadSize then fill_tx_buf ts1 else ts1
    if ts2.txBuf ≠ [] then do
      let st3 := get_next_tx_packet ts2
      let qr ← cmd_queue_packet st3.2.modem st3.1 default_fuel
      .ok { st3.2 with modem := qr.2 }
    else .ok ts2
  else .ok ts1

/-- WlUDPBase.run_receive (the receive pump): non-blockingly fetch one data
packet, append it to the receive staging buffer, and while the buffer holds a
FRAME_END extract each frame, unframe it, and enqueue non-empty decoded
datagrams (fill frames and errors are dropped).  No exception handling:
errors raised by the modem client propagate. -/
def run_receive (ts : TState) : Except PyErr TState := do
  let rd ← get_data_packet ts.modem 0 default_fuel
  let ts1 := { ts with modem := rd.2 }
  match rd.1 with
  | none => .ok ts1
  | some d =>
      if d = [] then .ok ts1
      else
        let rxb := ts1.rxBuf ++ d
        let good := (extractFrames rxb).filterMap (fun f =>
          match unframe f with
          | .data pd => if pd = [] then none else some pd
          | _ => none)
        .ok { ts1 with rxBuf := afterFrames rxb, rxQueueT := ts1.rxQueueT ++ good }

/-- One iteration of the worker thread body (WlUDPSocket.run): the send pump
then the receive pump, with no exception handler around either. -/
def runIter (ts : TState) : Except PyErr TState := do
  let ts1 ← run_send ts
  run_receive ts1

/-- The worker thread loop of WlUDPSocket.run, with fuel counting the
iterations executed while the run flag stays set. -/
def runWorker : Nat → TState → Except PyErr TState
  | 0, ts => .ok ts
  | fuel + 1, ts =>
      match runIter ts with
      | .error e => .error e
      | .ok ts' => runWorker fuel ts'

/-- An ASCII digit byte. -/
def isDigitB (b : Nat) : Bool := 48 ≤ b ∧ b ≤ 57

/-- Numeric value of a string of ASCII digit bytes. -/
def digitsVal (ds : List Nat) : Nat := ds.foldl (fun a d => a * 10 + (d - 48)) 0

/-- The specification's regular expression for the binary-holdoff trigger,
written as a function: a buffer matching w[cr][qp],(digits),  maps to the
decimal value of the digit group, every other buffer to none.  This encodes
the claimed trigger condition, to compare against get_binary_payload_size
and the streaming parser. -/
def specHoldoffPattern (buf : List Nat) : Option Nat :=
  match buf with
  | 119 :: d :: c :: 44 :: rest =>
      if (d = 99 ∨ d = 114) ∧ (c = 113 ∨ c = 112) then
        match rest.getLast? with
        | some 44 =>
            let digits := rest.dropLast
            if digits ≠ [] ∧ digits.all isDigitB then some (digitsVal digits) else none
        | _ => none
      else none
  | _ => none

/-- The framed sentence as the decoder receives it: do_frame output with the
trailing EOP removed (the streaming layer swallows the EOP before handing
the buffer to parse). -/
def framed_sentence (cmd direction : Nat) (options : List (List Nat)) (checksum : Bool) :
    List Nat :=
  (do_frame cmd direction options checksum).dropLast

/-- The byte three positions from the end of a candidate sentence is not the
checksum sigil, so the decoder does not enter its checksum-stripping path. -/
def checksum_pos_clear (s : List Nat) : Prop := s.getD (s.length - 3) 0 ≠ CHECKSUM

/-- Well-formedness of an options list for a given code, as the encoder
needs it for a faithful round trip: either no options, or for the binary
queue_packet/got_packet codes exactly a comma-free length field and a
payload, or for the text codes comma-free fields.  Every option list
conforming to the specification's per-code schema satisfies this. -/
def options_wf (cmd : Nat) (options : List (List Nat)) : Prop :=
  options = [] ∨
    (if cmd = CMD_QUEUE_PACKET ∨ cmd = RESP_GOT_PACKET then
      ∃ o1 o2, options = [o1, o2] ∧ 44 ∉ o1
    else ∀ o ∈ options, 44 ∉ o)

/-- The modem client of the C6 scenario: a fresh WlModemBase (payload size
still -1) whose device will deliver an unsolicited got_packet sentence
followed by the queue-length response. -/
def c6_modem : ModemState := ⟨ascii ("wrp,8,12345678\nwrl,8\n"), initPState, [], -1⟩

/-- The unsolicited got_packet sentence delivered first in the C6 scenario. -/
def c6_got_packet : Sentence :=
  ⟨RESP_GOT_PACKET, DIR_RESP, some [ascii ("8"), ascii ("12345678")]⟩

/-- The C6 scenario's modem state after the first get_packet poll: the
got_packet sentence has been consumed, the queue-length response is still
pending. -/
def c6_modem_after : ModemState := ⟨ascii ("wrl,8\n"), initPState, [], -1⟩

/-- A transport state whose modem device delivers the malformed sentence
wzx: the first queue-length poll of the send pump raises
WlProtocolParseError inside the worker. -/
def c9_state : TState := ⟨⟨ascii ("wzx\n"), initPState, [], 8⟩, [], [], [], [], 2⟩

deriving instance DecidableEq for Except

instance (s : List Nat) : Decidable (checksum_pos_clear s) := by
  unfold checksum_pos_clear; infer_instance

/-!
## Theorems

Each claim of the specification review is settled below; helper lemmas are
shared, claim theorems are one per claim.
-/

/-- C10: the result of cmd_get_payload_size is independent of its timeout
argument — the internal request is always issued with the default poll
budget and the caller-supplied timeout is never forwarded. -/
theorem c10_payload_size_timeout_independent :
    ∀ (m : ModemState) (t1 t2 : Nat), cmd_get_payload_size m t1 = cmd_get_payload_size m t2 :=
  fun _ _ _ => rfl

/-- C2 counterexample: the candidate sentence wcx has a well-formed SOP and
direction byte and the unknown code x, yet the decoder returns None — a
non-error value — instead of signalling WlProtocolParseError. -/
theorem c2_counterexample : parse (ascii ("wcx")) = .ok none := by decide

/-- C2 amended: a candidate sentence with well-formed SOP and direction, no
checksum field, and an unknown code byte decodes to None (no sentence and no
error); the specification's example wzx raises parse_error only because its
direction byte z is itself invalid. -/
theorem c2_amended :
    (∀ s : List Nat, 3 ≤ s.length → s.getD 0 0 = SOP →
      (s.getD 1 0 = DIR_CMD ∨ s.getD 1 0 = DIR_RESP) →
      checksum_pos_clear s → s.getD 2 0 ∉ ALL_VALID →
      parse s = .ok none)
    ∧ parse (ascii ("wzx")) = .error .parseError := by
  constructor
  · intro s hlen hsop hdir hclear hcmd
    unfold checksum_pos_clear at hclear
    unfold parse parse_tail
    rw [if_neg (by omega), if_neg (by rw [hsop]; simp), if_neg (by omega)]
    rw [if_neg (by rcases hdir with h | h <;> rw [h] <;> simp [DIR_CMD, DIR_RESP])]
    rw [if_neg hclear]
    rw [if_neg (by omega), if_neg hcmd]
  · decide

/-- C2 witness: the unknown-code sentence wry decodes to None. -/
theorem c2_amended_witness :
    3 ≤ (ascii ("wry")).length ∧ parse (ascii ("wry")) = .ok none :=
  ⟨by decide,
    c2_amended.1 (ascii ("wry")) (by decide) (by decide) (by decide) (by decide) (by decide)⟩

/-- C4 counterexample: the buffer wcq,12, matches the specification's
holdoff regular expression with count 12, but the streaming parser is left
with holdoff 11 — the detector fired one byte early, on the length-6 buffer
wcq,12 without its trailing comma, and consumed the comma as payload; and
get_binary_payload_size rejects the 7-byte regex-matching buffer outright.
Conversely wcq,42 does not match the regular expression, yet leaves the
parser with holdoff 42. -/
theorem c4_counterexample :
    specHoldoffPattern (ascii ("wcq,12,")) = some 12 ∧
    (processBytes (ascii ("wcq,12,")) initPState).1.holdoff = 11 ∧
    get_binary_payload_size (ascii ("wcq,12,")) = -1 ∧
    specHoldoffPattern (ascii ("wcq,42")) = none ∧
    (processBytes (ascii ("wcq,42")) initPState).1.holdoff = 42 := by
  refine ⟨rfl, rfl, rfl, rfl, rfl⟩

/-- C9 counterexample: with the malformed device input wzx, the first
iteration of the worker loop ends with the WlProtocolParseError raised by
the send pump's queue-length poll — the exception propagates out of the
worker instead of being logged. -/
theorem c9_counterexample : runWorker 1 c9_state = .error .parseError := by decide

/-- C9 amended: the worker loop contains no exception handler — any
exception raised inside the send pump or the receive pump propagates out of
the worker body and terminates the loop. -/
theorem c9_amended :
    (∀ (ts : TState) (e : PyErr), run_send ts = .error e → runIter ts = .error e) ∧
    (∀ (ts ts1 : TState) (e : PyErr), run_send ts = .ok ts1 → run_receive ts1 = .error e →
      runIter ts = .error e) ∧
    (∀ (ts : TState) (e : PyErr) (fuel : Nat), runIter ts = .error e →
      runWorker (fuel + 1) ts = .error e) := by
  refine ⟨?_, ?_, ?_⟩
  · intro ts e h
    simp only [runIter, Bind.bind, Except.bind, h]
  · intro ts ts1 e h1 h2
    simp only [runIter, Bind.bind, Except.bind, h1, h2]
  · intro ts e fuel h
    simp only [runWorker, h]

/-- C9 witness: a send-pump parse error propagates through runIter. -/
theorem c9_amended_witness :
    run_send c9_state = .error .parseError ∧ runIter c9_state = .error .parseError :=
  ⟨by decide, c9_amended.1 c9_state .parseError (by decide)⟩

/-- The streaming parser step emits nothing on a byte that is not an EOP:
emission only ever happens on a line terminator outside a holdoff window. -/
lemma pstep_no_eop (st : PState) (b : Nat) (h : is_eop b = false) : (pstep st b).2 = none := by
  unfold pstep
  rw [if_neg (by simp [h])]
  simp only [h, Bool.false_eq_true, if_false]
  split <;> split <;> simp_all

/-- Processing a concatenation of byte strings threads the parser state and
concatenates the emitted outputs. -/
lemma processBytes_append (xs ys : List Nat) (st : PState) :
    processBytes (xs ++ ys) st =
      ((processBytes ys (processBytes xs st).1).1,
        (processBytes xs st).2 ++ (processBytes ys (processBytes xs st).1).2) := by
  induction xs generalizing st with
  | nil => simp [processBytes]
  | cons b rest ih =>
      simp only [List.cons_append, processBytes, List.append_eq]
      rw [ih]
      simp [List.append_assoc]

/-- C5: feeding any chunking of a byte stream to the streaming parser in
order, threading state across chunk boundaries, yields exactly the same
decoded-sentence sequence and final state as feeding the concatenated
stream; and a partial sentence — input containing no line terminator —
never produces output. -/
theorem c5_chunk_invariance :
    (∀ (chunks : List (List Nat)) (st : PState),
      processChunks chunks st = processBytes chunks.flatten st) ∧
    (∀ (bs : List Nat) (st : PState), (∀ b ∈ bs, is_eop b = false) →
      (processBytes bs st).2 = []) := by
  constructor
  · intro chunks
    induction chunks with
    | nil => intro st; simp [processChunks, processBytes]
    | cons c rest ih =>
        intro st
        simp only [processChunks, ih, List.flatten_cons, processBytes_append]
  · intro bs
    induction bs with
    | nil => intro st h; rfl
    | cons b rest ih =>
        intro st h
        simp only [processBytes]
        rw [pstep_no_eop st b (h b (by simp))]
        simp only [Option.toList_none, List.nil_append]
        exact ih _ (fun x hx => h x (by simp [hx]))

/-- C5 witness: the partial got_packet sentence wrp,8 produces no output. -/
theorem c5_chunk_invariance_witness :
    (∀ b ∈ ascii ("wrp,8"), is_eop b = false) ∧
    (processBytes (ascii ("wrp,8")) initPState).2 = [] :=
  ⟨by decide, c5_chunk_invariance.2 (ascii ("wrp,8")) initPState (by decide)⟩

/-- C6: an unsolicited got_packet sentence observed while waiting for a
command response is appended to the pending receive queue and polling
continues; concretely, with device input wrp,8,12345678 then wrl,8,
cmd_get_queue_length returns 8 and the subsequent get_data_packet returns
the bytes 12345678. -/
theorem c6_unsolicited_not_lost :
    (∀ (fuel resp_id : Nat) (m m' : ModemState) (msg : Sentence),
      get_packetM m = .ok (some msg, m') → msg.cmd = RESP_GOT_PACKET → msg.cmd ≠ resp_id →
      wait_sentence (fuel + 1) resp_id m =
        wait_sentence fuel resp_id { m' with rxQueue := m'.rxQueue ++ [msg] }) ∧
    (cmd_get_queue_length c6_modem default_fuel).map (fun r => r.1) = .ok 8 ∧
    (do
      let r1 ← cmd_get_queue_length c6_modem default_fuel
      let r2 ← get_data_packet r1.2 5 default_fuel
      pure r2.1 : Except PyErr (Option (List Nat))) = .ok (some (ascii ("12345678"))) := by
  refine ⟨?_, by decide, by decide⟩
  intro fuel resp_id m m' msg hget hp hne
  have hne2 : ¬ (RESP_GOT_PACKET = resp_id) := by rw [← hp]; exact hne
  conv_lhs => rw [wait_sentence]
  rw [hget]
  simp [hp, hne2]

/-- C6 witness: the polling-step property at the scenario's first poll. -/
theorem c6_unsolicited_not_lost_witness :
    get_packetM c6_modem = .ok (some c6_got_packet, c6_modem_after) ∧
    c6_got_packet.cmd = RESP_GOT_PACKET ∧
    c6_got_packet.cmd ≠ CMD_GET_BUFFER_LENGTH ∧
    wait_sentence 8 CMD_GET_BUFFER_LENGTH c6_modem =
      wait_sentence 7 CMD_GET_BUFFER_LENGTH
        { c6_modem_after with rxQueue := c6_modem_after.rxQueue ++ [c6_got_packet] } :=
  ⟨by decide, by decide, by decide,
    c6_unsolicited_not_lost.1 7 CMD_GET_BUFFER_LENGTH c6_modem c6_modem_after c6_got_packet
      (by decide) (by decide) (by decide)⟩


lemma extractFramesAux_nil (fuel : Nat) : extractFramesAux fuel [] = [] := by
  cases fuel <;> simp [extractFramesAux]

lemma padLoop_frames_fill :
    ∀ (fuel m : Nat) (f : List Nat), f ∈ extractFramesAux fuel (padLoop m) → unframe f = .fill := by
  intro fuel
  induction fuel with
  | zero => intro m f h; simp [extractFramesAux] at h
  | succ fuel ih =>
      intro m f h
      match m with
      | 0 => simp [padLoop, extractFramesAux] at h
      | 1 =>
          simp only [padLoop, extractFramesAux] at h
          rw [if_pos (by simp)] at h
          simp only [List.takeWhile, List.dropWhile] at h
          norm_num at h
          rcases h with rfl | h
          · decide
          · rw [extractFramesAux_nil] at h
            simp at h
      | m + 2 =>
          simp only [padLoop, extractFramesAux] at h
          rw [if_pos (by simp)] at h
          simp only [List.takeWhile, List.dropWhile] at h
          norm_num at h
          rcases h with rfl | h
          · decide
          · exact ih m f h

/-- C8: every frame that the receive pump extracts from a pure padding
pattern — pad_payload on an empty remainder, i.e. repeated 2-byte empty COBS
frames possibly followed by a single trailing zero — unframes to the fill
sentinel, never to a data value and never to a decode or CRC error. -/
theorem c8_padding_unframes_to_fill :
    ∀ (n : Int) (f : List Nat), f ∈ extractFrames (pad_payload [] n) → unframe f = .fill := by
  intro n f h
  have hp : pad_payload [] n = padLoop (n - 0).toNat := by
    simp [pad_payload]
  rw [hp] at h
  exact padLoop_frames_fill _ _ f h

/-- C8 witness: the first frame of the 5-byte padding pattern is fill. -/
theorem c8_padding_unframes_to_fill_witness :
    [1] ∈ extractFrames (pad_payload [] 5) ∧ unframe [1] = .fill :=
  ⟨by decide, c8_padding_unframes_to_fill 5 [1] (by decide)⟩


/-- The encoder never returns an empty encoding while a group is pending. -/
lemma encLoop_ne_nil_of_group_ne_nil :
    ∀ (xs group : List Nat) (fz : Bool), group ≠ [] → encLoop group xs fz ≠ [] := by
  intro xs
  induction xs with
  | nil =>
      intro group fz hg
      simp only [encLoop]
      rw [if_neg hg]
      split <;> simp
  | cons b rest ih =>
      intro group fz hg
      simp only [encLoop]
      split
      · simp
      · split
        · simp
        · exact ih (group ++ [b]) fz (by simp)

/-- With final_zero set the encoder always emits at least one byte. -/
lemma encLoop_true_ne_nil : ∀ (xs group : List Nat), encLoop group xs true ≠ [] := by
  intro xs
  induction xs with
  | nil =>
      intro group
      simp only [encLoop]
      split
      · simp
      · split <;> simp
  | cons b rest ih =>
      intro group
      simp only [encLoop]
      split
      · simp
      · split
        · simp
        · exact ih (group ++ [b])

/-- With final_zero clear and no pending group, the encoding is empty
exactly on empty input. -/
lemma encLoop_false_nil_iff (xs : List Nat) : encLoop [] xs false = [] ↔ xs = [] := by
  constructor
  · intro h
    match xs with
    | [] => rfl
    | b :: rest =>
        simp only [encLoop] at h
        split at h
        · simp at h
        · split at h
          · simp at h
          · exact absurd h (encLoop_ne_nil_of_group_ne_nil rest [b] false (by simp))
  · intro h; rw [h]; rfl

/-- The COBS/R decode loop inverts the encode loop: decoding the encoding of
`xs` continued from a pending zero-free group of at most 253 bytes restores
the group followed by `xs`, for any sufficient fuel. -/
lemma decLoop_encLoop :
    ∀ (xs group : List Nat) (fz : Bool) (fuel : Nat),
      0 ∉ group → group.length ≤ 253 → (encLoop group xs fz).length ≤ fuel →
      decLoop fuel (encLoop group xs fz) = some (group ++ xs) := by
  intro xs
  induction xs with
  | nil =>
      intro group fz fuel hg hlen hfuel
      simp only [encLoop] at hfuel ⊢
      by_cases hgn : group = []
      · subst hgn
        rw [if_pos rfl] at hfuel ⊢
        cases fz with
        | false => simp [decLoop]
        | true =>
            simp only [if_true] at hfuel ⊢
            cases fuel with
            | zero => simp at hfuel
            | succ fuel => simp [decLoop]
      · rw [if_neg hgn] at hfuel ⊢
        rcases (List.eq_nil_or_concat group).resolve_left hgn with ⟨L, b, hLb⟩
        rw [List.concat_eq_append] at hLb
        subst hLb
        have hb : b ≠ 0 := by simp at hg; tauto
        have hL0 : 0 ∉ L := by simp at hg; tauto
        have hgl : (L ++ [b]).getLastD 0 = b := by simp
        have hdl : (L ++ [b]).dropLast = L := List.dropLast_concat
        rw [hgl, hdl] at hfuel ⊢
        by_cases hsp : (L ++ [b]).length + 1 ≤ b
        · -- COBS/R special tail: the last data byte replaces the length code
          rw [if_pos hsp] at hfuel ⊢
          cases fuel with
          | zero => simp at hfuel
          | succ fuel =>
              simp only [decLoop]
              rw [if_neg hb]
              have hsp2 : L.length + 2 ≤ b := by
                simp only [List.length_append, List.length_cons, List.length_nil] at hsp
                omega
              rw [List.take_of_length_le (by omega), if_neg hL0]
              rw [if_pos (by omega)]
              simp
        · -- plain tail: length code then the group
          rw [if_neg hsp] at hfuel ⊢
          cases fuel with
          | zero => simp at hfuel
          | succ fuel =>
              simp only [decLoop]
              rw [if_neg (by simp)]
              rw [List.take_of_length_le (by omega)]
              rw [if_neg hg]
              rw [if_neg (by omega), if_pos (by omega)]
              simp
  | cons b rest ih =>
      intro group fz fuel hg hlen hfuel
      simp only [encLoop] at hfuel ⊢
      by_cases hb0 : b = 0
      · -- a zero byte: emit the pending group, restart with final_zero set
        subst hb0
        rw [if_pos rfl] at hfuel ⊢
        cases fuel with
        | zero => simp at hfuel
        | succ fuel =>
            simp only [decLoop]
            rw [if_neg (by omega)]
            rw [Nat.add_sub_cancel, List.take_left group, if_neg hg]
            have hne : encLoop [] rest true ≠ [] := encLoop_true_ne_nil rest []
            have hlne : 0 < (encLoop [] rest true).length := List.length_pos.mpr hne
            rw [if_neg (by simp only [List.length_append]; omega)]
            rw [if_neg (by simp only [List.length_append]; omega)]
            rw [List.drop_left group]
            have hfuel2 : (encLoop [] rest true).length ≤ fuel := by
              simp only [List.length_cons, List.length_append] at hfuel
              omega
            rw [ih [] true fuel (by simp) (by simp) hfuel2]
            rw [if_pos (by omega)]
            simp
      · rw [if_neg hb0] at hfuel ⊢
        by_cases h253 : group.length = 253
        · -- the group reached 254 bytes: emit with code 0xFF, clear final_zero
          rw [if_pos h253] at hfuel ⊢
          cases fuel with
          | zero => simp at hfuel
          | succ fuel =>
              simp only [decLoop]
              rw [if_neg (by omega)]
              have hgb : (group ++ [b]).length = 254 := by simp [h253]
              rw [show (255 - 1 : Nat) = 254 from rfl]
              rw [List.take_left' hgb]
              rw [if_neg (by
                simp only [List.mem_append, List.mem_singleton]
                rintro (h | h)
                · exact hg h
                · exact hb0 h.symm)]
              by_cases hre : rest = []
              · subst hre
                rw [show encLoop ([] : List Nat) [] false = [] from rfl] at hfuel ⊢
                rw [List.append_nil]
                rw [if_neg (by omega)]
                rw [if_pos hgb]
              · have hne : encLoop [] rest false ≠ [] :=
                  fun h => hre ((encLoop_false_nil_iff rest).mp h)
                have hlne : 0 < (encLoop [] rest false).length := List.length_pos.mpr hne
                rw [if_neg (by simp only [List.length_append, hgb]; omega)]
                rw [if_neg (by simp only [List.length_append, hgb]; omega)]
                rw [List.drop_left' hgb]
                have hfuel2 : (encLoop [] rest false).length ≤ fuel := by
                  simp only [List.length_cons, List.length_append, hgb] at hfuel
                  omega
                rw [ih [] false fuel (by simp) (by simp) hfuel2]
                rw [if_neg (by omega)]
                simp
        · -- keep accumulating the group
          rw [if_neg h253] at hfuel ⊢
          rw [ih (group ++ [b]) fz fuel
            (by simp only [List.mem_append, List.mem_singleton]
                rintro (h | h)
                · exact hg h
                · exact hb0 h.symm)
            (by simp only [List.length_append, List.length_cons, List.length_nil]; omega)
            hfuel]
          simp

/-- cobs.cobsr.decode inverts cobs.cobsr.encode on every byte string. -/
lemma cobsr_roundtrip (xs : List Nat) : cobsrDecode (cobsrEncode xs) = some xs := by
  unfold cobsrDecode cobsrEncode
  have h := decLoop_encLoop xs [] true (encLoop [] xs true).length (by simp) (by simp) le_rfl
  simpa using h

/-- C7: for every non-empty byte string d, unframing the frame of d — strip
the trailing zero, COBS/R-decode, verify and strip the CRC-8 — returns
exactly d. -/
theorem c7_frame_unframe_roundtrip (d : List Nat) (hd : d ≠ []) :
    unframe (frame d) = .data d := by
  have h1 : (cobsrEncode (d ++ [crc8 d]) ++ [0]).getLast? = some 0 := by
    rw [List.getLast?_concat]
  have h2 := cobsr_roundtrip (d ++ [crc8 d])
  simp only [unframe, frame, h1, List.dropLast_concat, h2]
  rw [if_neg (by simp)]
  rw [show (d ++ [crc8 d]).getLastD 0 = crc8 d by simp, if_pos rfl]

/-- C7 witness: the round trip at a concrete datagram. -/
theorem c7_frame_unframe_roundtrip_witness :
    ascii ("Hello sea") ≠ [] ∧ unframe (frame (ascii ("Hello sea"))) = .data (ascii ("Hello sea")) :=
  ⟨by decide, c7_frame_unframe_roundtrip (ascii ("Hello sea")) (by decide)⟩

/-- Python split returns the whole string when the separator is absent. -/
lemma pySplit_no_sep (sep : Nat) (l : List Nat) (h : sep ∉ l) : pySplit sep l = [l] := by
  induction l with
  | nil => rfl
  | cons x rest ih =>
      simp only [pySplit]
      rw [if_neg (by simp at h; tauto)]
      rw [ih (by simp at h; tauto)]

/-- Python split peels off a separator-free prefix. -/
lemma pySplit_peel (sep : Nat) (a l : List Nat) (h : sep ∉ a) :
    pySplit sep (a ++ sep :: l) = a :: pySplit sep l := by
  induction a with
  | nil => simp [pySplit]
  | cons x rest ih =>
      simp only [List.cons_append, pySplit, List.append_eq]
      rw [if_neg (by simp at h; tauto)]
      rw [ih (by simp at h; tauto)]

/-- With the split budget exhausted the rest is one fragment. -/
lemma pySplitN_zero (sep : Nat) (l : List Nat) : pySplitN sep 0 l = [l] := by
  induction l with
  | nil => rfl
  | cons x rest ih =>
      simp only [pySplitN]
      rw [if_neg (by simp)]
      rw [ih]

/-- Bounded split returns the whole string when the separator is absent. -/
lemma pySplitN_no_sep (sep m : Nat) (l : List Nat) (h : sep ∉ l) : pySplitN sep m l = [l] := by
  induction l with
  | nil => rfl
  | cons x rest ih =>
      simp only [pySplitN]
      rw [if_neg (by simp at h; tauto)]
      rw [ih (by simp at h; tauto)]

/-- Bounded split peels off a separator-free prefix, spending one split. -/
lemma pySplitN_peel (sep m : Nat) (a l : List Nat) (h : sep ∉ a) :
    pySplitN sep (m + 1) (a ++ sep :: l) = a :: pySplitN sep m l := by
  induction a with
  | nil => simp [pySplitN]
  | cons x rest ih =>
      simp only [List.cons_append, pySplitN, List.append_eq]
      rw [if_neg (by simp at h; tauto)]
      rw [ih (by simp at h; tauto)]

/-- Splitting the comma-join of comma-free options restores the options. -/
lemma pySplit_join (opts : List (List Nat)) (hne : opts ≠ [])
    (h : ∀ o ∈ opts, 44 ∉ o) : pySplit 44 (joinComma opts) = opts := by
  induction opts with
  | nil => exact absurd rfl hne
  | cons o rest ih =>
      match rest with
      | [] =>
          simp only [joinComma]
          exact pySplit_no_sep 44 o (h o (by simp))
      | o2 :: rest2 =>
          show pySplit 44 (o ++ 44 :: joinComma (o2 :: rest2)) = o :: o2 :: rest2
          rw [pySplit_peel 44 o _ (h o (by simp))]
          rw [ih (by simp) (fun x hx => h x (by simp [hx]))]

/-- No known code byte is the comma. -/
lemma cmd_valid_ne_comma {cmd : Nat} (hc : cmd ∈ ALL_VALID) : cmd ≠ 44 := by
  simp only [ALL_VALID, CMD_GET_VERSION, CMD_GET_PAYLOAD_SIZE, CMD_GET_BUFFER_LENGTH,
    CMD_GET_DIAGNOSTIC, CMD_GET_SETTINGS, CMD_SET_SETTINGS, CMD_QUEUE_PACKET, CMD_FLUSH,
    RESP_GOT_PACKET, List.mem_cons, List.mem_singleton, List.not_mem_nil, or_false] at hc
  omega

/-- The body of parse recovers code, direction and options from a framed
sentence body, for well-formed options. -/
lemma parse_tail_frame (cmd dir : Nat) (opts : List (List Nat))
    (hc : cmd ∈ ALL_VALID) (hd : dir = DIR_CMD ∨ dir = DIR_RESP) (ho : options_wf cmd opts) :
    parse_tail ([SOP, dir, cmd] ++ (if opts = [] then [] else 44 :: joinComma opts)) dir =
      .ok (some ⟨cmd, dir, if opts = [] then none else some opts⟩) := by
  have hcm : cmd ≠ 44 := cmd_valid_ne_comma hc
  have hdm : dir ≠ 44 := by rcases hd with rfl | rfl <;> simp [DIR_CMD, DIR_RESP]
  have hhead : (44 : Nat) ∉ [SOP, dir, cmd] := by
    intro h
    simp only [List.mem_cons, List.not_mem_nil, or_false, SOP] at h
    rcases h with h | h | h
    · omega
    · exact hdm h.symm
    · exact hcm h.symm
  unfold parse_tail
  rw [if_neg (by simp)]
  rw [show ∀ t : List Nat, ([SOP, dir, cmd] ++ t).getD 2 0 = cmd from fun t => by simp [List.getD]]
  rw [if_pos hc]
  by_cases hnil : opts = []
  · subst hnil
    rw [if_pos rfl, if_pos rfl, List.append_nil]
    by_cases hqp : cmd = CMD_QUEUE_PACKET ∨ cmd = RESP_GOT_PACKET
    · rw [if_pos hqp, pySplitN_no_sep 44 2 _ hhead]
      rw [if_neg (by simp)]
    · rw [if_neg hqp, pySplit_no_sep 44 _ hhead]
      rw [if_neg (by simp)]
  · rw [if_neg hnil, if_neg hnil]
    rcases ho with rfl | ho
    · exact absurd rfl hnil
    by_cases hqp : cmd = CMD_QUEUE_PACKET ∨ cmd = RESP_GOT_PACKET
    · rw [if_pos hqp] at ho ⊢
      obtain ⟨o1, o2, rfl, ho1⟩ := ho
      have hj : joinComma [o1, o2] = o1 ++ 44 :: o2 := by simp [joinComma]
      rw [hj]
      have hsp : pySplitN 44 2 ([SOP, dir, cmd] ++ 44 :: (o1 ++ 44 :: o2)) =
          [SOP, dir, cmd] :: o1 :: [o2] := by
        rw [show (2 : Nat) = 1 + 1 from rfl]
        rw [pySplitN_peel 44 1 _ _ hhead]
        rw [show (1 : Nat) = 0 + 1 from rfl]
        rw [pySplitN_peel 44 0 _ _ ho1]
        rw [pySplitN_zero]
      rw [hsp]
      rw [if_pos (by simp)]
      rfl
    · rw [if_neg hqp] at ho ⊢
      rw [pySplit_peel 44 _ _ hhead]
      rw [pySplit_join opts hnil ho]
      rw [if_pos (by simp; exact List.length_pos.mpr hnil)]
      rfl

/-- The framed sentence is the body followed by the optional checksum. -/
lemma framed_sentence_eq (cmd dir : Nat) (opts : List (List Nat)) (csum : Bool) :
    framed_sentence cmd dir opts csum =
      ([SOP, dir, cmd] ++ (if opts = [] then [] else 44 :: joinComma opts)) ++
        (if csum then
          checksum_for_buffer ([SOP, dir, cmd] ++ (if opts = [] then [] else 44 :: joinComma opts))
        else []) := by
  unfold framed_sentence do_frame do_frame_fragments
  rw [List.dropLast_concat]

/-- Round trip of the sentence codec: parse recovers the sentence from its
frame (EOP stripped), for any checksummed frame and for any un-checksummed
frame whose third-from-last byte is not the checksum sigil. -/
lemma parse_framed (cmd dir : Nat) (opts : List (List Nat)) (csum : Bool)
    (hc : cmd ∈ ALL_VALID) (hd : dir = DIR_CMD ∨ dir = DIR_RESP) (ho : options_wf cmd opts)
    (hstar : csum = false → checksum_pos_clear (framed_sentence cmd dir opts false)) :
    parse (framed_sentence cmd dir opts csum) =
      .ok (some ⟨cmd, dir, if opts = [] then none else some opts⟩) := by
  set resp := [SOP, dir, cmd] ++ (if opts = [] then [] else 44 :: joinComma opts) with hresp
  have hlen3 : 3 ≤ resp.length := by simp [hresp]
  have hg0 : resp.getD 0 0 = SOP := by simp [hresp, List.getD]
  have hg1 : resp.getD 1 0 = dir := by simp [hresp, List.getD]
  cases csum with
  | false =>
      have hfr : framed_sentence cmd dir opts false = resp := by
        rw [framed_sentence_eq]
        simp [hresp]
      rw [hfr]
      have hstar2 := hstar rfl
      rw [hfr] at hstar2
      unfold checksum_pos_clear at hstar2
      unfold parse
      rw [if_neg (by omega), if_neg (by rw [hg0]; simp), if_neg (by omega)]
      rw [if_neg (by rw [hg1]; rcases hd with rfl | rfl <;> simp [DIR_CMD, DIR_RESP])]
      rw [if_neg hstar2]
      rw [hg1]
      exact parse_tail_frame cmd dir opts hc hd ho
  | true =>
      have hfr : framed_sentence cmd dir opts true = resp ++ checksum_for_buffer resp := by
        rw [framed_sentence_eq, if_pos rfl]
      rw [hfr]
      have hcs : checksum_for_buffer resp =
          [CHECKSUM, hexDigit (crc8 resp / 16), hexDigit (crc8 resp % 16)] := rfl
      have hlen : (resp ++ checksum_for_buffer resp).length = resp.length + 3 := by
        simp [List.length_append, hcs]
      have hga : (resp ++ checksum_for_buffer resp).getD 0 0 = SOP := by
        rw [List.getD_append _ _ _ _ (by omega)]
        exact hg0
      have hgb : (resp ++ checksum_for_buffer resp).getD 1 0 = dir := by
        rw [List.getD_append _ _ _ _ (by omega)]
        exact hg1
      have hpos : (resp ++ checksum_for_buffer resp).getD
          ((resp ++ checksum_for_buffer resp).length - 3) 0 = CHECKSUM := by
        rw [hlen, Nat.add_sub_cancel]
        rw [List.getD_append_right _ _ _ _ (le_refl _)]
        rw [Nat.sub_self, hcs]
        rfl
      have htake : (resp ++ checksum_for_buffer resp).take
          ((resp ++ checksum_for_buffer resp).length - 3) = resp := by
        rw [hlen, Nat.add_sub_cancel]
        exact List.take_left resp _
      have hdrop : (resp ++ checksum_for_buffer resp).drop
          ((resp ++ checksum_for_buffer resp).length - 3) = checksum_for_buffer resp := by
        rw [hlen, Nat.add_sub_cancel]
        exact List.drop_left resp _
      unfold parse
      rw [if_neg (by omega), if_neg (by rw [hga]; simp), if_neg (by omega)]
      rw [if_neg (by rw [hgb]; rcases hd with rfl | rfl <;> simp [DIR_CMD, DIR_RESP])]
      rw [if_pos hpos]
      rw [htake, hdrop]
      rw [if_neg (by simp)]
      rw [hgb]
      exact parse_tail_frame cmd dir opts hc hd ho

/-- Decimal representations consist of ASCII digits. -/
lemma decReprAux_digits : ∀ (fuel n : Nat), ∀ d ∈ decReprAux fuel n, 48 ≤ d ∧ d ≤ 57 := by
  intro fuel
  induction fuel with
  | zero =>
      intro n d hd
      simp only [decReprAux, List.mem_singleton] at hd
      subst hd
      omega
  | succ fuel ih =>
      intro n d hd
      simp only [decReprAux] at hd
      split at hd
      · simp only [List.mem_singleton] at hd
        subst hd
        omega
      · simp only [List.mem_append, List.mem_singleton] at hd
        rcases hd with hd | hd
        · exact ih _ d hd
        · subst hd
          omega

/-- Decimal representations consist of ASCII digits. -/
lemma decRepr_digits (n : Nat) : ∀ d ∈ decRepr n, 48 ≤ d ∧ d ≤ 57 :=
  decReprAux_digits n n

/-- Decimal representations are never empty. -/
lemma decReprAux_ne_nil (fuel n : Nat) : decReprAux fuel n ≠ [] := by
  cases fuel with
  | zero => simp [decReprAux]
  | succ fuel =>
      simp only [decReprAux]
      split
      · simp
      · simp

/-- Decimal representations are never empty. -/
lemma decRepr_ne_nil (n : Nat) : decRepr n ≠ [] := decReprAux_ne_nil n n

/-- Decimal representations contain no comma. -/
lemma decRepr_no_comma (n : Nat) : 44 ∉ decRepr n := by
  intro h
  have := decRepr_digits n 44 h
  omega

/-- The framed binary sentence never has the checksum sigil three bytes from
its end as long as the payload itself does not carry it at that position:
for short payloads that position falls on the length field or a comma. -/
lemma framed_qp_pos_clear (cmd dir : Nat) (o1 payload : List Nat)
    (ho1d : ∀ d ∈ o1, 48 ≤ d ∧ d ≤ 57) (ho1n : o1 ≠ [])
    (hp : 3 ≤ payload.length → payload.getD (payload.length - 3) 0 ≠ CHECKSUM) :
    checksum_pos_clear (framed_sentence cmd dir [o1, payload] false) := by
  have hfr : framed_sentence cmd dir [o1, payload] false =
      [SOP, dir, cmd, 44] ++ (o1 ++ 44 :: payload) := by
    rw [framed_sentence_eq]
    simp [joinComma]
  unfold checksum_pos_clear
  rw [hfr]
  have ho1l : 1 ≤ o1.length := List.length_pos.mpr ho1n
  have hL1 : ([SOP, dir, cmd, 44] : List Nat).length = 4 := rfl
  have hlen : ([SOP, dir, cmd, 44] ++ (o1 ++ 44 :: payload)).length =
      5 + o1.length + payload.length := by
    simp
    omega
  rw [hlen]
  have hdig : ∀ k, k < o1.length → o1.getD k 0 ≠ CHECKSUM := by
    intro k hk
    have hm : o1.getD k 0 ∈ o1 := by
      rw [List.getD_eq_getElem o1 0 hk]
      exact List.getElem_mem hk
    have := ho1d _ hm
    unfold CHECKSUM
    omega
  by_cases hp3 : 3 ≤ payload.length
  · rw [List.getD_append_right _ _ _ _ (by omega)]
    rw [List.getD_append_right _ _ _ _ (by omega)]
    rw [show 5 + o1.length + payload.length - 3 - ([SOP, dir, cmd, 44] : List Nat).length -
        o1.length = (payload.length - 3) + 1 from by omega]
    rw [List.getD_cons_succ]
    exact hp hp3
  · have hpl : payload.length = 0 ∨ payload.length = 1 ∨ payload.length = 2 := by omega
    rcases hpl with hpl | hpl | hpl
    · by_cases ho1 : o1.length = 1
      · rw [List.getD_append _ _ _ _ (by omega)]
        rw [show 5 + o1.length + payload.length - 3 = 3 from by omega]
        simp [List.getD, CHECKSUM]
      · rw [List.getD_append_right _ _ _ _ (by omega)]
        rw [List.getD_append _ _ _ _ (by omega)]
        exact hdig _ (by omega)
    · rw [List.getD_append_right _ _ _ _ (by omega)]
      rw [List.getD_append _ _ _ _ (by omega)]
      exact hdig _ (by omega)
    · rw [List.getD_append_right _ _ _ _ (by omega)]
      rw [List.getD_append_right _ _ _ _ (by omega)]
      rw [show 5 + o1.length + payload.length - 3 - ([SOP, dir, cmd, 44] : List Nat).length -
          o1.length = 0 from by omega]
      simp [CHECKSUM]

set_option maxRecDepth 8000 in
/-- C1 counterexample: the schema-valid queue_packet sentence with the
8-byte binary payload 12345*78, framed without a checksum, does not decode
back to itself: the * three bytes from the end is taken for a checksum
field and the decoder raises WlProtocolChecksumError. -/
theorem c1_counterexample :
    parse (framed_sentence CMD_QUEUE_PACKET DIR_CMD [ascii ("8"), ascii ("12345*78")] false) =
      .error .checksumError ∧
    parse (framed_sentence CMD_QUEUE_PACKET DIR_CMD [ascii ("8"), ascii ("12345*78")] false) ≠
      .ok (some ⟨CMD_QUEUE_PACKET, DIR_CMD, some [ascii ("8"), ascii ("12345*78")]⟩) := by
  constructor
  · decide
  · decide

/-- C1 amended: decoding the encoding of a valid sentence (parse applied to
the do_frame output with its trailing EOP stripped, as the streaming layer
does) returns the sentence, for every frame carrying a checksum, and for
every frame without one whose third-from-last byte is not the checksum
sigil; the only schema-valid sentences excluded are queue_packet/got_packet
payloads that place * at that position. -/
theorem c1_roundtrip_amended :
    ∀ (cmd dir : Nat) (opts : List (List Nat)) (csum : Bool),
      cmd ∈ ALL_VALID → (dir = DIR_CMD ∨ dir = DIR_RESP) → options_wf cmd opts →
      (csum = false → checksum_pos_clear (framed_sentence cmd dir opts false)) →
      parse (framed_sentence cmd dir opts csum) =
        .ok (some ⟨cmd, dir, if opts = [] then none else some opts⟩) :=
  fun cmd dir opts csum hc hd ho hstar => parse_framed cmd dir opts csum hc hd ho hstar

set_option maxRecDepth 8000 in
/-- C1 witness: the version response round-trips without a checksum. -/
theorem c1_roundtrip_amended_witness :
    options_wf CMD_GET_VERSION [ascii ("1"), ascii ("0"), ascii ("1")] ∧
    checksum_pos_clear
      (framed_sentence CMD_GET_VERSION DIR_RESP [ascii ("1"), ascii ("0"), ascii ("1")] false) ∧
    parse (framed_sentence CMD_GET_VERSION DIR_RESP [ascii ("1"), ascii ("0"), ascii ("1")] false) =
      .ok (some ⟨CMD_GET_VERSION, DIR_RESP, some [ascii ("1"), ascii ("0"), ascii ("1")]⟩) := by
  have how : options_wf CMD_GET_VERSION [ascii ("1"), ascii ("0"), ascii ("1")] := by
    right
    rw [if_neg (by decide)]
    decide
  refine ⟨how, by decide, ?_⟩
  have h := c1_roundtrip_amended CMD_GET_VERSION DIR_RESP
    [ascii ("1"), ascii ("0"), ascii ("1")] false (by decide) (by decide) how
    (fun _ => by decide)
  rw [if_neg (by decide)] at h
  exact h

set_option maxRecDepth 8000 in
/-- C3 counterexample: a got_packet sentence whose 8-byte payload places *
three bytes from the sentence end, framed without checksum, is rejected
with WlProtocolChecksumError instead of returning the payload. -/
theorem c3_counterexample :
    parse (framed_sentence RESP_GOT_PACKET DIR_RESP [ascii ("8"), ascii ("abcde*01")] false) =
      .error .checksumError ∧
    parse (framed_sentence RESP_GOT_PACKET DIR_RESP [ascii ("8"), ascii ("abcde*01")] false) ≠
      .ok (some ⟨RESP_GOT_PACKET, DIR_RESP, some [ascii ("8"), ascii ("abcde*01")]⟩) := by
  constructor
  · decide
  · decide

/-- C3 amended: a queue_packet/got_packet sentence framed without checksum
decodes to its exact binary payload for every payload content — EOP bytes,
commas and the * sigil anywhere included — except a payload placing * three
bytes from the end of the sentence, which is misread as a checksum field. -/
theorem c3_binary_payload_roundtrip :
    ∀ (cmd dir : Nat) (payload : List Nat),
      (cmd = CMD_QUEUE_PACKET ∨ cmd = RESP_GOT_PACKET) →
      (dir = DIR_CMD ∨ dir = DIR_RESP) →
      (3 ≤ payload.length → payload.getD (payload.length - 3) 0 ≠ CHECKSUM) →
      parse (framed_sentence cmd dir [decRepr payload.length, payload] false) =
        .ok (some ⟨cmd, dir, some [decRepr payload.length, payload]⟩) := by
  intro cmd dir payload hqp hd hp
  have hc : cmd ∈ ALL_VALID := by
    rcases hqp with rfl | rfl <;> decide
  have ho : options_wf cmd [decRepr payload.length, payload] := by
    right
    rw [if_pos hqp]
    exact ⟨decRepr payload.length, payload, rfl, decRepr_no_comma payload.length⟩
  have h := parse_framed cmd dir [decRepr payload.length, payload] false hc hd ho
    (fun _ => framed_qp_pos_clear cmd dir (decRepr payload.length) payload
      (decRepr_digits payload.length) (decRepr_ne_nil payload.length) hp)
  rw [if_neg (by simp)] at h
  exact h

set_option maxRecDepth 8000 in
/-- C3 witness: the payload HelloSea round-trips through the binary path. -/
theorem c3_binary_payload_roundtrip_witness :
    (3 ≤ (ascii ("HelloSea")).length →
      (ascii ("HelloSea")).getD ((ascii ("HelloSea")).length - 3) 0 ≠ CHECKSUM) ∧
    parse (framed_sentence RESP_GOT_PACKET DIR_RESP
        [decRepr (ascii ("HelloSea")).length, ascii ("HelloSea")] false) =
      .ok (some ⟨RESP_GOT_PACKET, DIR_RESP,
        some [decRepr (ascii ("HelloSea")).length, ascii ("HelloSea")]⟩) :=
  ⟨by decide,
    c3_binary_payload_roundtrip RESP_GOT_PACKET DIR_RESP (ascii ("HelloSea"))
      (by decide) (by decide) (by decide)⟩

/-- The binary-payload detector rejects every buffer whose length is not
exactly six. -/
lemma gbps_len_ne_six (s : List Nat) (h : s.length ≠ 6) : get_binary_payload_size s = -1 := by
  unfold get_binary_payload_size
  rw [if_pos h]

/-- Python int() of a single ASCII digit. -/
lemma pyInt_digit (n : Nat) (h9 : n ≤ 9) : pyInt [48 + n] = .ok (n : Int) := by
  interval_cases n <;> decide

/-- The binary-payload detector fires on the 6-byte form SOP, any direction
byte other than a comma, queue_packet/got_packet code, comma, digit, comma —
the direction byte is never inspected, only a comma there would shift the
field split. -/
lemma gbps_six_byte (d c n : Nat) (hd44 : d ≠ 44)
    (hc : c = CMD_QUEUE_PACKET ∨ c = RESP_GOT_PACKET) (h9 : n ≤ 9) :
    get_binary_payload_size [SOP, d, c, 44, 48 + n, 44] = (n : Int) := by
  have hc44 : c ≠ 44 := by rcases hc with rfl | rfl <;> decide
  have hhead : (44 : Nat) ∉ [SOP, d, c] := by
    intro h
    rcases List.mem_cons.mp h with h | h
    · exact absurd h (by decide)
    rcases List.mem_cons.mp h with h | h
    · exact hd44 h.symm
    rcases List.mem_cons.mp h with h | h
    · exact hc44 h.symm
    · simp at h
  have hdigit : (44 : Nat) ∉ [48 + n] := by
    simp
    omega
  have hsplit : pySplitN 44 2 [SOP, d, c, 44, 48 + n, 44] = [[SOP, d, c], [48 + n], []] := by
    rw [show [SOP, d, c, 44, 48 + n, 44] = [SOP, d, c] ++ 44 :: ([48 + n] ++ 44 :: []) from rfl]
    rw [show (2 : Nat) = 1 + 1 from rfl, pySplitN_peel 44 1 _ _ hhead]
    rw [show (1 : Nat) = 0 + 1 from rfl, pySplitN_peel 44 0 _ _ hdigit]
    rw [pySplitN_zero]
  have hgd2 : ([SOP, d, c, 44, 48 + n, 44] : List Nat).getD 2 0 = c := by simp [List.getD]
  unfold get_binary_payload_size
  rw [if_neg (by simp)]
  rw [if_neg (by simp [List.getD, SOP])]
  rw [if_neg (by rw [hgd2]; exact not_not_intro hc)]
  rw [hsplit]
  rw [if_neg (by simp)]
  rw [show ([[SOP, d, c], [48 + n], []] : List (List Nat)).getD 1 [] = [48 + n] from by
    simp [List.getD]]
  rw [pyInt_digit n h9]

/-- One unfolding step of processBytes. -/
lemma processBytes_cons (b : Nat) (rest : List Nat) (st : PState) :
    processBytes (b :: rest) st =
      ((processBytes rest (pstep st b).1).1,
        (pstep st b).2.toList ++ (processBytes rest (pstep st b).1).2) := rfl

/-- A non-EOP byte arriving with no holdoff pending is appended, and the
holdoff is loaded from the detector exactly when it reports a positive
count; nothing is emitted. -/
lemma pstep_append (buf : List Nat) (b : Nat) (hb : is_eop b = false) :
    pstep ⟨buf, 0⟩ b =
      (if 0 < get_binary_payload_size (buf ++ [b]) then
        ⟨buf ++ [b], (get_binary_payload_size (buf ++ [b])).toNat⟩
      else ⟨buf ++ [b], 0⟩, none) := by
  unfold pstep
  rw [if_neg (by simp [hb])]
  simp only [hb, Bool.false_eq_true, if_false]
  simp only [lt_irrefl, if_false]
  simp only [if_true, ite_self, true_and]

/-- Streaming non-EOP bytes whose proper prefixes never trigger the
detector accumulates them in the buffer, loading the holdoff from the
detector's verdict on the full buffer. -/
lemma processBytes_accum :
    ∀ (bs buf : List Nat), bs ≠ [] →
      (∀ b ∈ bs, is_eop b = false) →
      (∀ k, 1 ≤ k → k < bs.length → get_binary_payload_size (buf ++ bs.take k) ≤ 0) →
      processBytes bs ⟨buf, 0⟩ =
        (if 0 < get_binary_payload_size (buf ++ bs) then
          ⟨buf ++ bs, (get_binary_payload_size (buf ++ bs)).toNat⟩
        else ⟨buf ++ bs, 0⟩, []) := by
  intro bs
  induction bs with
  | nil => intro buf h; exact absurd rfl h
  | cons b rest ih =>
      intro buf _ hne hpre
      rw [processBytes_cons, pstep_append buf b (hne b (by simp))]
      by_cases hr : rest = []
      · subst hr
        by_cases hg : 0 < get_binary_payload_size (buf ++ [b])
        · rw [if_pos hg]
          simp [processBytes]
        · rw [if_neg hg]
          simp [processBytes]
      · have hg1 : get_binary_payload_size (buf ++ [b]) ≤ 0 := by
          have h := hpre 1 le_rfl
            (by simp only [List.length_cons]; have := List.length_pos.mpr hr; omega)
          rw [show (1 : Nat) = 0 + 1 from rfl, List.take_succ_cons, List.take_zero] at h
          exact h
        rw [if_neg (by omega)]
        rw [ih (buf ++ [b]) hr (fun x hx => hne x (by simp [hx]))
          (fun k hk1 hk2 => by
            have h := hpre (k + 1) (by omega)
              (by simp only [List.length_cons] at hk2 ⊢; omega)
            rw [List.take_succ_cons, List.append_cons] at h
            exact h)]
        rw [← List.append_cons]
        simp

/-- C4 amended: the binary-payload detector only ever fires on exactly
6-byte buffers (so the regular expression's multi-digit counts are never
matched as written), it fires for every direction byte other than a comma —
the direction byte is never compared against c or r — and on the 6-byte
form of SOP, any non-comma direction byte, queue_packet/got_packet code,
comma, single positive digit, comma, the streaming parser sets holdoff to
that digit's value (a line-terminator direction byte is excluded only in
the streaming statement, since the stream never accumulates it into a
buffer). -/
theorem c4_amended :
    (∀ s : List Nat, s.length ≠ 6 → get_binary_payload_size s = -1) ∧
    (∀ d c n : Nat, d ≠ 44 → (c = CMD_QUEUE_PACKET ∨ c = RESP_GOT_PACKET) → n ≤ 9 →
      get_binary_payload_size [SOP, d, c, 44, 48 + n, 44] = n) ∧
    (∀ d c n : Nat, is_eop d = false → d ≠ 44 →
      (c = CMD_QUEUE_PACKET ∨ c = RESP_GOT_PACKET) → 1 ≤ n → n ≤ 9 →
      processBytes [SOP, d, c, 44, 48 + n, 44] initPState =
        (⟨[SOP, d, c, 44, 48 + n, 44], n⟩, [])) := by
  refine ⟨gbps_len_ne_six, fun d c n hd44 hc h9 => gbps_six_byte d c n hd44 hc h9, ?_⟩
  intro d c n hde hd44 hc h1 h9
  have hne : ∀ b ∈ [SOP, d, c, 44, 48 + n, 44], is_eop b = false := by
    intro b hb
    simp only [List.mem_cons, List.not_mem_nil, or_false] at hb
    rcases hb with rfl | rfl | rfl | rfl | rfl | rfl
    · rfl
    · exact hde
    · rcases hc with rfl | rfl <;> rfl
    · rfl
    · simp [is_eop]
      omega
    · rfl
  have hpre : ∀ k, 1 ≤ k → k < ([SOP, d, c, 44, 48 + n, 44] : List Nat).length →
      get_binary_payload_size (([] : List Nat) ++ ([SOP, d, c, 44, 48 + n, 44].take k)) ≤ 0 := by
    intro k hk1 hk6
    rw [List.nil_append]
    rw [gbps_len_ne_six _ (by
      rw [List.length_take]
      simp only [List.length_cons, List.length_nil] at hk6
      omega)]
    norm_num
  have hacc := processBytes_accum [SOP, d, c, 44, 48 + n, 44] [] (by simp) hne hpre
  rw [List.nil_append] at hacc
  rw [show initPState = (⟨[], 0⟩ : PState) from rfl, hacc]
  rw [gbps_six_byte d c n hd44 hc h9]
  rw [if_pos (by exact_mod_cast h1)]
  simp

/-- C4 witness: a length-other-than-six buffer never fires, and the buffer
wxq,4, with the invalid direction byte x still sets holdoff 4. -/
theorem c4_amended_witness :
    (ascii ("hello")).length ≠ 6 ∧ get_binary_payload_size (ascii ("hello")) = -1 ∧
    is_eop 120 = false ∧ (120 : Nat) ≠ 44 ∧
    processBytes [SOP, 120, CMD_QUEUE_PACKET, 44, 48 + 4, 44] initPState =
      (⟨[SOP, 120, CMD_QUEUE_PACKET, 44, 48 + 4, 44], 4⟩, []) :=
  ⟨by decide, c4_amended.1 (ascii ("hello")) (by decide), by decide, by decide,
    c4_amended.2.2 120 CMD_QUEUE_PACKET 4 (by decide) (by decide) (Or.inl rfl)
      (by decide) (by decide)⟩

end Wlm
